import Mathlib

/-!
# Verification of the 10101 leveraged-position risk & order engine

A shallow embedding of the trading core behind
`src/mobile/ios/Runner/bridge_generated.h`.  The header exposes only the
call surface (wire signatures); the engine itself (risk calculator, order
store, order engine, event hub) is modelled from the specification, with
doubles embedded as exact rationals and the wire `uint64_t` margin as
`Fin (2 ^ 64)`.
-/

namespace TenTenOne

/-- Error taxonomy of the engine (spec §7): validation, lookup, duplicate
identifier, illegal state change, settlement degradation, and
risk-calculator domain violations. -/
inductive EngineError
  | ValidationError
  | NotFound
  | DuplicateId
  | InvalidTransition
  | SettlementPending
  | SettlementFailed
  | InvalidInput
deriving DecidableEq, Repr

/-- Position direction (wire `int32_t direction`; spec: Long | Short). -/
inductive Direction
  | Long
  | Short
deriving DecidableEq, Repr

/-- Modelled from the spec: the body of `calculate_margin` is not in the
excerpt (the header only declares `wire_calculate_margin`).  Spec §4.1:
margin = (price × quantity) / leverage, failing with `InvalidInput` when
leverage ≤ 0 or price ≤ 0 or quantity ≤ 0.  Doubles are embedded as ℚ. -/
def calculate_margin (price quantity leverage : ℚ) : Except EngineError ℚ :=
  if leverage ≤ 0 ∨ price ≤ 0 ∨ quantity ≤ 0 then
    .error .InvalidInput
  else
    .ok (price * quantity / leverage)

/-- Modelled from the spec: the body of `calculate_quantity` is not in the
excerpt (the header only declares `wire_calculate_quantity`).  Spec §4.1:
quantity = (margin × leverage) / price, with the same input-validation
failure as `calculate_margin`. -/
def calculate_quantity (price margin leverage : ℚ) : Except EngineError ℚ :=
  if leverage ≤ 0 ∨ price ≤ 0 ∨ margin ≤ 0 then
    .error .InvalidInput
  else
    .ok (margin * leverage / price)

/-- Modelled from the spec: the body of `calculate_liquidation_price` is not
in the excerpt (the header only declares `wire_calculate_liquidation_price`).
Spec §4.1: Long ↦ price × (1 − 1/leverage), Short ↦ price × (1 + 1/leverage),
failing with `InvalidInput` if leverage ≤ 1 or price ≤ 0. -/
def calculate_liquidation_price (price leverage : ℚ) (direction : Direction) :
    Except EngineError ℚ :=
  if leverage ≤ 1 ∨ price ≤ 0 then
    .error .InvalidInput
  else
    match direction with
    | .Long => .ok (price * (1 - 1 / leverage))
    | .Short => .ok (price * (1 + 1 / leverage))

/-- C1: `calculate_margin` returns (price × quantity) / leverage on positive
inputs, fails with `InvalidInput` when leverage ≤ 0 or price ≤ 0 or
quantity ≤ 0, and in particular maps (50000, 0.1, 10) to 500. -/
theorem calculate_margin_spec (price quantity leverage : ℚ) :
    (0 < price → 0 < quantity → 0 < leverage →
      calculate_margin price quantity leverage = .ok (price * quantity / leverage))
    ∧ (leverage ≤ 0 ∨ price ≤ 0 ∨ quantity ≤ 0 →
      calculate_margin price quantity leverage = .error .InvalidInput)
    ∧ calculate_margin 50000 (1 / 10) 10 = .ok 500 := by
  refine ⟨fun hp hq hl => ?_, fun h => ?_, ?_⟩
  · rw [calculate_margin, if_neg]
    push_neg
    exact ⟨hl, hp, hq⟩
  · rw [calculate_margin, if_pos h]
  · rw [calculate_margin, if_neg]
    · norm_num
    · push_neg
      norm_num

/-- Witness for C1: the positive branch at (50000, 0.1, 10) and the failure
branch at leverage = 0. -/
theorem calculate_margin_spec_witness :
    calculate_margin 50000 (1 / 10) 10 = .ok (50000 * (1 / 10) / 10)
    ∧ calculate_margin 1 1 0 = .error .InvalidInput := by
  constructor
  · exact (calculate_margin_spec 50000 (1 / 10) 10).1 (by norm_num) (by norm_num)
      (by norm_num)
  · exact (calculate_margin_spec 1 1 0).2.1 (Or.inl le_rfl)

/-- C2: feeding `calculate_margin`'s result back through `calculate_quantity`
recovers the quantity; in the exact-rational embedding of the doubles the
round trip is exact (hence within any floating tolerance). -/
theorem margin_quantity_round_trip (price quantity leverage : ℚ)
    (hp : 0 < price) (hq : 0 < quantity) (hl : 0 < leverage) :
    ∃ m : ℚ, calculate_margin price quantity leverage = .ok m
      ∧ calculate_quantity price m leverage = .ok quantity := by
  refine ⟨price * quantity / leverage, ?_, ?_⟩
  · rw [calculate_margin, if_neg]
    push_neg
    exact ⟨hl, hp, hq⟩
  · have hm : 0 < price * quantity / leverage := by positivity
    rw [calculate_quantity, if_neg]
    · congr 1
      field_simp
    · push_neg
      exact ⟨hl, hp, hm⟩

/-- Witness for C2: the round trip at price=50000, quantity=0.1, leverage=10. -/
theorem margin_quantity_round_trip_witness :
    ∃ m : ℚ, calculate_margin 50000 (1 / 10) 10 = .ok m
      ∧ calculate_quantity 50000 m 10 = .ok (1 / 10) :=
  margin_quantity_round_trip 50000 (1 / 10) 10 (by norm_num) (by norm_num)
    (by norm_num)

/-- C3: `calculate_liquidation_price` returns price × (1 − 1/leverage) for
Long and price × (1 + 1/leverage) for Short when price > 0 and leverage > 1,
fails with `InvalidInput` when leverage ≤ 1 or price ≤ 0, and in particular
maps (50000, 10, Long) to 45000. -/
theorem calculate_liquidation_price_spec (price leverage : ℚ) :
    (0 < price → 1 < leverage →
      calculate_liquidation_price price leverage .Long
          = .ok (price * (1 - 1 / leverage))
        ∧ calculate_liquidation_price price leverage .Short
          = .ok (price * (1 + 1 / leverage)))
    ∧ (leverage ≤ 1 ∨ price ≤ 0 → ∀ d : Direction,
      calculate_liquidation_price price leverage d = .error .InvalidInput)
    ∧ calculate_liquidation_price 50000 10 .Long = .ok 45000 := by
  refine ⟨fun hp hl => ?_, fun h d => ?_, ?_⟩
  · have hcond : ¬(leverage ≤ 1 ∨ price ≤ 0) := by
      push_neg
      exact ⟨hl, hp⟩
    constructor
    · rw [calculate_liquidation_price, if_neg hcond]
    · rw [calculate_liquidation_price, if_neg hcond]
  · cases d
    · rw [calculate_liquidation_price, if_pos h]
    · rw [calculate_liquidation_price, if_pos h]
  · have hcond : ¬((10 : ℚ) ≤ 1 ∨ (50000 : ℚ) ≤ 0) := by norm_num
    rw [calculate_liquidation_price, if_neg hcond]
    norm_num

/-- Witness for C3: the Long/Short formulas at (50000, 10) and the failure
branch at leverage = 1. -/
theorem calculate_liquidation_price_spec_witness :
    (calculate_liquidation_price 50000 10 .Long = .ok (50000 * (1 - 1 / 10))
      ∧ calculate_liquidation_price 50000 10 .Short
        = .ok (50000 * (1 + 1 / 10)))
    ∧ calculate_liquidation_price 50000 1 .Long = .error .InvalidInput := by
  constructor
  · exact (calculate_liquidation_price_spec 50000 10).1 (by norm_num) (by norm_num)
  · exact (calculate_liquidation_price_spec 50000 1).2.1 (Or.inl le_rfl) .Long

/-- C7: for price > 0 and leverage > 1 the Long liquidation price lies
strictly below the current price and the Short liquidation price strictly
above it. -/
theorem liquidation_price_bounds (price leverage : ℚ)
    (hp : 0 < price) (hl : 1 < leverage) :
    ∃ lo hi : ℚ, calculate_liquidation_price price leverage .Long = .ok lo
      ∧ calculate_liquidation_price price leverage .Short = .ok hi
      ∧ lo < price ∧ price < hi := by
  have hl0 : 0 < leverage := lt_trans one_pos hl
  have hinv : 0 < 1 / leverage := by positivity
  have hcond : ¬(leverage ≤ 1 ∨ price ≤ 0) := by
    push_neg
    exact ⟨hl, hp⟩
  refine ⟨price * (1 - 1 / leverage), price * (1 + 1 / leverage), ?_, ?_, ?_, ?_⟩
  · rw [calculate_liquidation_price, if_neg hcond]
  · rw [calculate_liquidation_price, if_neg hcond]
  · nlinarith
  · nlinarith

/-- Witness for C7: the strict bounds at price=50000, leverage=10. -/
theorem liquidation_price_bounds_witness :
    ∃ lo hi : ℚ, calculate_liquidation_price 50000 10 .Long = .ok lo
      ∧ calculate_liquidation_price 50000 10 .Short = .ok hi
      ∧ lo < 50000 ∧ 50000 < hi :=
  liquidation_price_bounds 50000 10 (by norm_num) (by norm_num)

/-- Order lifecycle states (spec §4.3). -/
inductive OrderStatus
  | Pending
  | Filled
  | Settled
  | Rejected
  | Closed
deriving DecidableEq, Repr, Fintype

/-- Modelled from the spec: the transition table of §4.3 (the order engine
behind `wire_submit_order` is not in the excerpt).  Allowed transitions:
Pending → Filled, Pending → Rejected, Filled → Settled, Filled → Closed. -/
def validTransition : OrderStatus → OrderStatus → Bool
  | .Pending, .Filled => true
  | .Pending, .Rejected => true
  | .Filled, .Settled => true
  | .Filled, .Closed => true
  | _, _ => false

/-- Contract symbol: an enumerated instrument, `int32_t contract_symbol` on
the wire. -/
abbrev ContractSymbol := Int

/-- Order type: the wire tagged union `wire_OrderType` (Market | Limit with a
price). -/
inductive OrderType
  | Market
  | Limit (price : ℚ)
deriving DecidableEq, Repr

/-- Order identifier: an opaque unique token, `wire_uint_8_list` on the
wire. -/
abbrev OrderId := List Nat

/-- Modelled from the spec: the stored Order record of §3 (identifier,
symbol, direction, quantity, leverage, order type, status, creation
timestamp); the store behind `wire_get_order`/`wire_get_orders` is not in
the excerpt. -/
structure Order where
  id : OrderId
  contract_symbol : ContractSymbol
  direction : Direction
  quantity : ℚ
  leverage : ℚ
  order_type : OrderType
  status : OrderStatus
  creation_timestamp : Nat
deriving DecidableEq, Repr

/-- Modelled from the spec: the Order Store §4.2, the authoritative ordered
sequence of orders (creation order, new orders appended at the end). -/
structure OrderStore where
  orders : List Order
deriving DecidableEq, Repr

/-- Modelled from the spec: `get(id) -> Order | NotFound` (§4.2). -/
def OrderStore.get (s : OrderStore) (id : OrderId) : Except EngineError Order :=
  match s.orders.find? (fun o => o.id == id) with
  | some o => .ok o
  | none => .error .NotFound

/-- Modelled from the spec: `insert(order)` (§4.2), rejecting with
`DuplicateId` if the identifier already exists; the store is returned
alongside the result so that no-mutation-on-failure is explicit. -/
def OrderStore.insert (s : OrderStore) (o : Order) :
    Except EngineError Unit × OrderStore :=
  if s.orders.any (fun o2 => o2.id == o.id) then
    (.error .DuplicateId, s)
  else
    (.ok (), ⟨s.orders ++ [o]⟩)

/-- Modelled from the spec: `update_status(id, new_status)` (§4.2), enforcing
the §4.3 transition table and failing with `InvalidTransition` otherwise,
`NotFound` for an unknown identifier. -/
def OrderStore.update_status (s : OrderStore) (id : OrderId)
    (new_status : OrderStatus) : Except EngineError Unit × OrderStore :=
  match s.orders.find? (fun o => o.id == id) with
  | none => (.error .NotFound, s)
  | some o =>
    if validTransition o.status new_status then
      (.ok (),
        ⟨s.orders.map fun o2 =>
          if o2.id == id then { o2 with status := new_status } else o2⟩)
    else
      (.error .InvalidTransition, s)

/-- The `wire_NewOrder` payload: leverage, quantity, contract symbol,
direction and order type. -/
structure NewOrder where
  leverage : ℚ
  quantity : ℚ
  contract_symbol : ContractSymbol
  direction : Direction
  order_type : OrderType
deriving DecidableEq, Repr

/-- Modelled from the spec: input validation of `submit_order` (§3 invariant
and §4.3): leverage within [1, max_leverage(symbol)], positive quantity, and
a Limit order carries a strictly positive price.  The per-instrument bound
`max_leverage` is not observable from the excerpt and is a parameter. -/
def validNewOrder (max_leverage : ContractSymbol → ℚ) (no : NewOrder) : Bool :=
  decide (1 ≤ no.leverage)
    && decide (no.leverage ≤ max_leverage no.contract_symbol)
    && decide (0 < no.quantity)
    && (match no.order_type with
        | .Market => true
        | .Limit p => decide (0 < p))

/-- The stored order made from a validated `NewOrder`: the engine assigns the
identifier and timestamp and the initial status is `Pending` (§4.3). -/
def NewOrder.toOrder (no : NewOrder) (id : OrderId) (ts : Nat) : Order :=
  { id := id
    contract_symbol := no.contract_symbol
    direction := no.direction
    quantity := no.quantity
    leverage := no.leverage
    order_type := no.order_type
    status := .Pending
    creation_timestamp := ts }

/-- Modelled from the spec: `submit_order(new_order)` (§4.3), behind
`wire_submit_order`.  Validates the input shape, failing synchronously with
`ValidationError` before any state is persisted; otherwise assigns the fresh
identifier and stores the order as `Pending`. -/
def submit_order (max_leverage : ContractSymbol → ℚ) (s : OrderStore)
    (fresh : OrderId) (ts : Nat) (no : NewOrder) :
    Except EngineError OrderId × OrderStore :=
  if validNewOrder max_leverage no then
    match s.insert (no.toOrder fresh ts) with
    | (.ok _, s2) => (.ok fresh, s2)
    | (.error e, _) => (.error e, s)
  else
    (.error .ValidationError, s)

/-- C4: the status machine admits exactly Pending → Filled,
Pending → Rejected, Filled → Settled and Filled → Closed; no transition
leaves `Rejected` or `Closed`; every order created by a successful
`submit_order` starts in `Pending`; `update_status` on an existing order
fails with `InvalidTransition` (store untouched) for any pair outside the
table, and succeeds only along the table. -/
theorem order_status_transition_table :
    (∀ a b : OrderStatus, validTransition a b = true ↔
      (a = .Pending ∧ b = .Filled) ∨ (a = .Pending ∧ b = .Rejected)
        ∨ (a = .Filled ∧ b = .Settled) ∨ (a = .Filled ∧ b = .Closed))
    ∧ (∀ b : OrderStatus,
      validTransition .Rejected b = false ∧ validTransition .Closed b = false)
    ∧ (∀ (ml : ContractSymbol → ℚ) (s : OrderStore) (fresh : OrderId)
        (ts : Nat) (no : NewOrder) (r : OrderId) (s2 : OrderStore),
        submit_order ml s fresh ts no = (.ok r, s2) →
        ∀ o ∈ s2.orders, o ∉ s.orders → o.status = .Pending)
    ∧ (∀ (s : OrderStore) (id : OrderId) (st : OrderStatus) (o : Order),
        s.get id = .ok o → validTransition o.status st = false →
        s.update_status id st = (.error .InvalidTransition, s))
    ∧ (∀ (s : OrderStore) (id : OrderId) (st : OrderStatus) (s2 : OrderStore),
        s.update_status id st = (.ok (), s2) →
        ∃ o, s.get id = .ok o ∧ validTransition o.status st = true) := by
  refine ⟨by decide, by decide, ?_, ?_, ?_⟩
  · intro ml s fresh ts no r s2 h o ho hno
    by_cases hv : validNewOrder ml no
    · rw [submit_order, if_pos hv] at h
      by_cases hd : s.orders.any (fun o2 => o2.id == (no.toOrder fresh ts).id)
      · rw [OrderStore.insert, if_pos hd] at h
        exact absurd h (by simp)
      · rw [OrderStore.insert, if_neg hd] at h
        obtain ⟨h1, h2⟩ := Prod.mk.injEq .. ▸ h
        rw [← h2] at ho
        rcases List.mem_append.mp ho with hin | hin
        · exact absurd hin hno
        · rw [List.mem_singleton.mp hin]
          rfl
    · rw [submit_order, if_neg hv] at h
      exact absurd h (by simp)
  · intro s id st o hget hinv
    have hfind : s.orders.find? (fun o2 => o2.id == id) = some o := by
      rw [OrderStore.get] at hget
      cases hf : s.orders.find? (fun o2 => o2.id == id) with
      | none => rw [hf] at hget; exact absurd hget (by simp)
      | some o2 =>
        rw [hf] at hget
        rw [Except.ok.injEq] at hget
        rw [hget]
    rw [OrderStore.update_status, hfind]
    simp [hinv]
  · intro s id st s2 h
    rw [OrderStore.update_status] at h
    cases hf : s.orders.find? (fun o2 => o2.id == id) with
    | none => rw [hf] at h; exact absurd h (by simp)
    | some o =>
      rw [hf] at h
      by_cases hv : validTransition o.status st = true
      · exact ⟨o, by rw [OrderStore.get, hf], hv⟩
      · simp [hv] at h

/-- Witness for C4: Pending → Filled is in the table, and updating a Pending
order straight to Settled fails with `InvalidTransition`, leaving the
singleton store unchanged. -/
theorem order_status_transition_table_witness :
    validTransition .Pending .Filled = true
    ∧ OrderStore.update_status ⟨[⟨[1], 0, .Long, 1, 2, .Market, .Pending, 0⟩]⟩
        [1] .Settled
      = (.error .InvalidTransition,
         ⟨[⟨[1], 0, .Long, 1, 2, .Market, .Pending, 0⟩]⟩) := by
  constructor
  · exact (order_status_transition_table.1 .Pending .Filled).mpr
      (Or.inl ⟨rfl, rfl⟩)
  · exact order_status_transition_table.2.2.2.1
      ⟨[⟨[1], 0, .Long, 1, 2, .Market, .Pending, 0⟩]⟩ [1] .Settled
      ⟨[1], 0, .Long, 1, 2, .Market, .Pending, 0⟩ rfl rfl

/-- C5: for every malformed `NewOrder` — leverage out of bounds,
non-positive quantity, or a Limit order with non-positive price —
`submit_order` fails synchronously with `ValidationError` and returns the
store unchanged: nothing is inserted and no existing order is mutated. -/
theorem submit_order_rejects_malformed (ml : ContractSymbol → ℚ)
    (s : OrderStore) (fresh : OrderId) (ts : Nat) (no : NewOrder)
    (h : no.leverage < 1 ∨ ml no.contract_symbol < no.leverage
      ∨ no.quantity ≤ 0 ∨ ∃ p, no.order_type = .Limit p ∧ p ≤ 0) :
    submit_order ml s fresh ts no = (.error .ValidationError, s) := by
  have hv : validNewOrder ml no = false := by
    unfold validNewOrder
    rcases h with h | h | h | ⟨p, hp, hple⟩
    · simp [decide_eq_false (not_le.mpr h)]
    · simp [decide_eq_false (not_le.mpr h)]
    · simp [decide_eq_false (not_lt.mpr h)]
    · rw [hp]
      simp [decide_eq_false (not_lt.mpr hple)]
  rw [submit_order]
  simp [hv]

/-- Witness for C5: a `NewOrder` with leverage 0 is rejected with
`ValidationError` and the empty store is unchanged. -/
theorem submit_order_rejects_malformed_witness :
    submit_order (fun _ => 25) ⟨[]⟩ [7] 0 ⟨0, 1, 0, .Long, .Market⟩
      = (.error .ValidationError, ⟨[]⟩) :=
  submit_order_rejects_malformed (fun _ => 25) ⟨[]⟩ [7] 0
    ⟨0, 1, 0, .Long, .Market⟩ (Or.inl (by norm_num))

/-- C6: `insert` fails with `DuplicateId` exactly when `get` on the new
order's identifier succeeds; an insert failure can only be `DuplicateId` and
leaves the store unchanged; and `get id` returns `NotFound` exactly when no
stored order carries `id`. -/
theorem insert_get_spec (s : OrderStore) (o : Order) (id : OrderId) :
    ((s.insert o).1 = .error .DuplicateId ↔ ∃ o2, s.get o.id = .ok o2)
    ∧ (∀ e, (s.insert o).1 = .error e →
        e = .DuplicateId ∧ (s.insert o).2 = s)
    ∧ (s.get id = .error .NotFound ↔ ∀ o2 ∈ s.orders, o2.id ≠ id) := by
  have hiff : s.orders.any (fun o2 => o2.id == o.id) = true
      ↔ ∃ o2, s.get o.id = .ok o2 := by
    rw [List.any_eq_true]
    constructor
    · rintro ⟨o2, ho2, hid⟩
      cases hf : s.orders.find? (fun o3 => o3.id == o.id) with
      | none => exact absurd (List.find?_eq_none.mp hf o2 ho2) (by simp [hid])
      | some o3 => exact ⟨o3, by rw [OrderStore.get, hf]⟩
    · rintro ⟨o2, hg⟩
      rw [OrderStore.get] at hg
      cases hf : s.orders.find? (fun o3 => o3.id == o.id) with
      | none => rw [hf] at hg; exact absurd hg (by simp)
      | some o3 =>
        have hmem := List.mem_of_find?_eq_some hf
        have hpred := List.find?_some hf
        exact ⟨o3, hmem, hpred⟩
  refine ⟨?_, ?_, ?_⟩
  · by_cases hd : s.orders.any (fun o2 => o2.id == o.id)
    · simp only [OrderStore.insert, hd, if_true]
      exact ⟨fun _ => hiff.mp hd, fun _ => trivial⟩
    · simp only [OrderStore.insert, hd, if_false, Bool.false_eq_true]
      constructor
      · intro hcontra
        exact absurd hcontra (by simp)
      · intro hex
        exact absurd (hiff.mpr hex) hd
  · intro e he
    by_cases hd : s.orders.any (fun o2 => o2.id == o.id)
    · simp only [OrderStore.insert, hd, if_true] at he ⊢
      rw [Except.error.injEq] at he
      exact ⟨he.symm, trivial⟩
    · simp only [OrderStore.insert, hd, Bool.false_eq_true, if_false] at he
      exact absurd he (by simp)
  · constructor
    · intro hg o2 ho2 hid
      cases hf : s.orders.find? (fun o3 => o3.id == id) with
      | some o3 => rw [OrderStore.get, hf] at hg; exact absurd hg (by simp)
      | none =>
        have hnp := List.find?_eq_none.mp hf o2 ho2
        simp [hid] at hnp
    · intro hall
      have hf : s.orders.find? (fun o3 => o3.id == id) = none :=
        List.find?_eq_none.mpr fun x hx => by simpa using hall x hx
      rw [OrderStore.get, hf]

/-- Witness for C6: re-inserting the only stored order fails with
`DuplicateId` leaving the store unchanged, and `get` on a fresh identifier
returns `NotFound`. -/
theorem insert_get_spec_witness :
    (OrderStore.insert ⟨[⟨[1], 0, .Long, 1, 2, .Market, .Pending, 0⟩]⟩
        ⟨[1], 0, .Short, 3, 5, .Market, .Pending, 9⟩).1
      = .error .DuplicateId
    ∧ OrderStore.get ⟨[⟨[1], 0, .Long, 1, 2, .Market, .Pending, 0⟩]⟩ [2]
      = .error .NotFound := by
  constructor
  · exact (insert_get_spec ⟨[⟨[1], 0, .Long, 1, 2, .Market, .Pending, 0⟩]⟩
      ⟨[1], 0, .Short, 3, 5, .Market, .Pending, 9⟩ [2]).1.mpr
      ⟨⟨[1], 0, .Long, 1, 2, .Market, .Pending, 0⟩, rfl⟩
  · exact (insert_get_spec ⟨[⟨[1], 0, .Long, 1, 2, .Market, .Pending, 0⟩]⟩
      ⟨[1], 0, .Short, 3, 5, .Market, .Pending, 9⟩ [2]).2.2.mpr
      (by simp)

/-- Subscription event (spec §3): a tagged union over order updates, price
updates and channel events, delivered in emission order. -/
inductive Event
  | OrderUpdated (o : Order)
  | PriceUpdated (symbol : ContractSymbol) (price : ℚ)
  | ChannelEvent (info : List Nat)
deriving DecidableEq, Repr

/-- Whether an event is a price update for the given feed. -/
def Event.isPrice (sym : ContractSymbol) : Event → Bool
  | .PriceUpdated s _ => s == sym
  | _ => false

/-- Whether an event is an order update. -/
def Event.isOrderUpdate : Event → Bool
  | .OrderUpdated _ => true
  | _ => false

/-- Modelled from the spec: the backpressure policy of the Event
Subscription Hub (§4.4), whose implementation behind `wire_subscribe` is not
in the excerpt.  When a consumer lags, the buffered emission sequence is
compacted: a stale `PriceUpdated` — one followed by a newer `PriceUpdated`
for the same feed — is dropped (latest-value-wins); every other event is
kept in order. -/
def compactBackpressure : List Event → List Event
  | [] => []
  | .PriceUpdated sym p :: rest =>
    if rest.any (Event.isPrice sym) then compactBackpressure rest
    else .PriceUpdated sym p :: compactBackpressure rest
  | e :: rest => e :: compactBackpressure rest

theorem compactBackpressure_filter_orders (buf : List Event) :
    (compactBackpressure buf).filter Event.isOrderUpdate
      = buf.filter Event.isOrderUpdate := by
  induction buf with
  | nil => rfl
  | cons e rest ih =>
    cases e with
    | OrderUpdated o =>
      simp [compactBackpressure, List.filter_cons, Event.isOrderUpdate, ih]
    | ChannelEvent i =>
      simp [compactBackpressure, List.filter_cons, Event.isOrderUpdate, ih]
    | PriceUpdated sym p =>
      by_cases hd : rest.any (Event.isPrice sym)
      · simp [compactBackpressure, hd, List.filter_cons, Event.isOrderUpdate,
          ih]
      · simp [compactBackpressure, hd, List.filter_cons, Event.isOrderUpdate,
          ih]

theorem compactBackpressure_sublist (buf : List Event) :
    (compactBackpressure buf).Sublist buf := by
  induction buf with
  | nil => simp [compactBackpressure]
  | cons e rest ih =>
    cases e with
    | OrderUpdated o =>
      simp only [compactBackpressure]
      exact ih.cons₂ _
    | ChannelEvent i =>
      simp only [compactBackpressure]
      exact ih.cons₂ _
    | PriceUpdated sym p =>
      by_cases hd : rest.any (Event.isPrice sym)
      · simp only [compactBackpressure, hd, if_true]
        exact ih.cons _
      · simp only [compactBackpressure, hd, Bool.false_eq_true, if_false]
        exact ih.cons₂ _

theorem compactBackpressure_retains_feed (buf : List Event)
    (sym : ContractSymbol) (h : buf.any (Event.isPrice sym) = true) :
    ∃ p, Event.PriceUpdated sym p ∈ compactBackpressure buf := by
  induction buf with
  | nil => simp at h
  | cons e rest ih =>
    cases e with
    | OrderUpdated o =>
      have h2 : rest.any (Event.isPrice sym) = true := by
        simpa [Event.isPrice] using h
      obtain ⟨p, hp⟩ := ih h2
      exact ⟨p, by simp only [compactBackpressure]; exact List.mem_cons_of_mem _ hp⟩
    | ChannelEvent i =>
      have h2 : rest.any (Event.isPrice sym) = true := by
        simpa [Event.isPrice] using h
      obtain ⟨p, hp⟩ := ih h2
      exact ⟨p, by simp only [compactBackpressure]; exact List.mem_cons_of_mem _ hp⟩
    | PriceUpdated s q =>
      by_cases hss : s = sym
      · subst hss
        by_cases hd : rest.any (Event.isPrice s)
        · obtain ⟨p, hp⟩ := ih hd
          exact ⟨p, by simp only [compactBackpressure, hd, if_true]; exact hp⟩
        · refine ⟨q, ?_⟩
          simp only [compactBackpressure, hd, Bool.false_eq_true, if_false]
          exact List.mem_cons_self _ _
      · have h2 : rest.any (Event.isPrice sym) = true := by
          rw [List.any_cons] at h
          rcases Bool.or_eq_true_iff.mp h with h1 | h1
          · exact absurd (by simpa [Event.isPrice] using h1) hss
          · exact h1
        obtain ⟨p, hp⟩ := ih h2
        by_cases hd : rest.any (Event.isPrice s)
        · exact ⟨p, by simp only [compactBackpressure, hd, if_true]; exact hp⟩
        · exact ⟨p, by
            simp only [compactBackpressure, hd, Bool.false_eq_true, if_false]
            exact List.mem_cons_of_mem _ hp⟩

theorem compactBackpressure_drop_superseded (buf : List Event) :
    ∀ e ∈ buf, e ∉ compactBackpressure buf →
      ∃ sym p, e = .PriceUpdated sym p
        ∧ ∃ p2, Event.PriceUpdated sym p2 ∈ compactBackpressure buf := by
  induction buf with
  | nil =>
    intro e he
    simp at he
  | cons a rest ih =>
    intro e he hne
    cases a with
    | OrderUpdated o =>
      have hform : compactBackpressure (.OrderUpdated o :: rest)
          = .OrderUpdated o :: compactBackpressure rest := by
        simp only [compactBackpressure]
      rw [hform] at hne ⊢
      have hea : e ≠ .OrderUpdated o := fun hh =>
        hne (hh ▸ List.mem_cons_self _ _)
      have herest : e ∈ rest := (List.mem_cons.mp he).resolve_left hea
      have hnec : e ∉ compactBackpressure rest := fun hh =>
        hne (List.mem_cons_of_mem _ hh)
      obtain ⟨sym, p, hep, p2, hp2⟩ := ih e herest hnec
      exact ⟨sym, p, hep, p2, List.mem_cons_of_mem _ hp2⟩
    | ChannelEvent i =>
      have hform : compactBackpressure (.ChannelEvent i :: rest)
          = .ChannelEvent i :: compactBackpressure rest := by
        simp only [compactBackpressure]
      rw [hform] at hne ⊢
      have hea : e ≠ .ChannelEvent i := fun hh =>
        hne (hh ▸ List.mem_cons_self _ _)
      have herest : e ∈ rest := (List.mem_cons.mp he).resolve_left hea
      have hnec : e ∉ compactBackpressure rest := fun hh =>
        hne (List.mem_cons_of_mem _ hh)
      obtain ⟨sym, p, hep, p2, hp2⟩ := ih e herest hnec
      exact ⟨sym, p, hep, p2, List.mem_cons_of_mem _ hp2⟩
    | PriceUpdated s q =>
      by_cases hd : rest.any (Event.isPrice s)
      · have hform : compactBackpressure (.PriceUpdated s q :: rest)
            = compactBackpressure rest := by
          simp only [compactBackpressure, hd, if_true]
        rw [hform] at hne ⊢
        rcases List.mem_cons.mp he with hh | hh
        · obtain ⟨p2, hp2⟩ := compactBackpressure_retains_feed rest s hd
          exact ⟨s, q, hh, p2, hp2⟩
        · exact ih e hh hne
      · have hform : compactBackpressure (.PriceUpdated s q :: rest)
            = .PriceUpdated s q :: compactBackpressure rest := by
          simp only [compactBackpressure, hd, Bool.false_eq_true, if_false]
        rw [hform] at hne ⊢
        have hea : e ≠ .PriceUpdated s q := fun hh =>
          hne (hh ▸ List.mem_cons_self _ _)
        have herest : e ∈ rest := (List.mem_cons.mp he).resolve_left hea
        have hnec : e ∉ compactBackpressure rest := fun hh =>
          hne (List.mem_cons_of_mem _ hh)
        obtain ⟨sym, p, hep, p2, hp2⟩ := ih e herest hnec
        exact ⟨sym, p, hep, p2, List.mem_cons_of_mem _ hp2⟩

/-- C8: under backpressure compaction the hub preserves the `OrderUpdated`
subsequence exactly (so every `OrderUpdated` is delivered at least once),
only ever omits events (a sublist of the emission order, never reordered or
invented), and an event it does drop is a `PriceUpdated` superseded by a
newer retained `PriceUpdated` for the same feed. -/
theorem hub_backpressure_spec (buf : List Event) :
    ((compactBackpressure buf).filter Event.isOrderUpdate
        = buf.filter Event.isOrderUpdate)
    ∧ (∀ o : Order, .OrderUpdated o ∈ buf →
        .OrderUpdated o ∈ compactBackpressure buf)
    ∧ (compactBackpressure buf).Sublist buf
    ∧ (∀ e ∈ buf, e ∉ compactBackpressure buf →
        ∃ sym p, e = .PriceUpdated sym p
          ∧ ∃ p2, Event.PriceUpdated sym p2 ∈ compactBackpressure buf) := by
  refine ⟨compactBackpressure_filter_orders buf, ?_,
    compactBackpressure_sublist buf, compactBackpressure_drop_superseded buf⟩
  intro o ho
  have h1 : Event.OrderUpdated o ∈ buf.filter Event.isOrderUpdate :=
    List.mem_filter.mpr ⟨ho, rfl⟩
  rw [← compactBackpressure_filter_orders] at h1
  exact (List.mem_filter.mp h1).1

/-- Witness for C8: in a buffer holding a stale price for feed 0, an order
update, and a fresh price for feed 0, the dropped stale price is superseded
by a retained newer price for the same feed. -/
theorem hub_backpressure_spec_witness :
    ∃ sym p, (Event.PriceUpdated 0 1 : Event) = .PriceUpdated sym p
      ∧ ∃ p2, Event.PriceUpdated sym p2 ∈ compactBackpressure
          [.PriceUpdated 0 1,
           .OrderUpdated ⟨[1], 0, .Long, 1, 2, .Market, .Pending, 0⟩,
           .PriceUpdated 0 2] :=
  (hub_backpressure_spec
      [.PriceUpdated 0 1,
       .OrderUpdated ⟨[1], 0, .Long, 1, 2, .Market, .Pending, 0⟩,
       .PriceUpdated 0 2]).2.2.2
    (.PriceUpdated 0 1) (by simp) (by decide)

/-- The declared wire signature of the quantity computation
(`WireSyncReturn wire_calculate_quantity(double price, uint64_t margin,
double leverage)`, bridge_generated.h line 59): price and leverage are
doubles (embedded as ℚ) while margin is an unsigned 64-bit integer,
injected into the rational domain of the core function. -/
def wire_calculate_quantity (price : ℚ) (margin : Fin (2 ^ 64))
    (leverage : ℚ) : Except EngineError ℚ :=
  calculate_quantity price (margin.val : ℚ) leverage

/-- C9: at the public interface the margin argument of the quantity
computation is an unsigned 64-bit integer: every wire call hands the core
function a margin that is a nonnegative integer (denominator 1) strictly
below 2^64, so fractional or negative margins cannot be passed even though
price and leverage are doubles. -/
theorem wire_margin_uint64 (price leverage : ℚ) (margin : Fin (2 ^ 64)) :
    ∃ m : ℚ, wire_calculate_quantity price margin leverage
        = calculate_quantity price m leverage
      ∧ 0 ≤ m ∧ m < 2 ^ 64 ∧ m.den = 1 := by
  refine ⟨(margin.val : ℚ), rfl, Nat.cast_nonneg _, ?_, Rat.den_natCast _⟩
  have h := margin.isLt
  calc (margin.val : ℚ) < ((2 ^ 64 : ℕ) : ℚ) := by exact_mod_cast h
    _ = 2 ^ 64 := by norm_num

/-- A wire function declaration shape from bridge_generated.h: whether the
declaration takes an `int64_t port_` argument and whether it returns a
`WireSyncReturn` value directly. -/
structure WireDecl where
  name : String
  hasPort : Bool
  returnsSync : Bool
deriving DecidableEq, Repr

/-- The four Settlement Gateway declarations of bridge_generated.h
(lines 73–79): `WireSyncReturn wire_get_new_address(void)`,
`void wire_open_channel(int64_t port_)`,
`void wire_create_invoice(int64_t port_)`, and
`void wire_send_payment(int64_t port_, struct wire_uint_8_list *invoice)`. -/
def settlementGatewayDecls : List WireDecl :=
  [⟨"wire_get_new_address", false, true⟩,
   ⟨"wire_open_channel", true, false⟩,
   ⟨"wire_create_invoice", true, false⟩,
   ⟨"wire_send_payment", true, false⟩]

/-- C10: of the four Settlement Gateway operations exposed at the public
interface, `get_new_address` is the only one returning its result
synchronously, and exactly the synchronous one takes no caller-supplied
port identifier. -/
theorem settlement_gateway_sync_shape :
    ∀ d ∈ settlementGatewayDecls,
      (d.returnsSync = true ↔ d.name = "wire_get_new_address")
      ∧ (d.returnsSync = true ↔ d.hasPort = false) := by
  decide

/-- Witness for C10: the shape equivalences at the `wire_get_new_address`
declaration itself. -/
theorem settlement_gateway_sync_shape_witness :
    ((⟨"wire_get_new_address", false, true⟩ : WireDecl).returnsSync = true
      ↔ (⟨"wire_get_new_address", false, true⟩ : WireDecl).name
        = "wire_get_new_address")
    ∧ ((⟨"wire_get_new_address", false, true⟩ : WireDecl).returnsSync = true
      ↔ (⟨"wire_get_new_address", false, true⟩ : WireDecl).hasPort = false) :=
  settlement_gateway_sync_shape ⟨"wire_get_new_address", false, true⟩
    (by simp [settlementGatewayDecls])

end TenTenOne
